import Mathlib

/-!
Verification development for the `dynamicworld` repository.

The repository composes Earth Engine (EE) client calls.  All EE image
operations used by the code act independently per pixel, so the embedding
models one pixel of an image as an `Option` value (`none` = masked by the
validity mask) and an image-collection band as a `List` of such per-pixel
values, one entry per image of the collection, in collection order.

EE operation semantics embedded here (per the EE reference):
`toInt` casts by truncation toward zero; `divide` returns 0 for division
by zero and is masked where either operand is masked; a reducer applied
over a collection is masked at a pixel where every input is masked, and
otherwise reduces the unmasked inputs; `toArray` is masked where any input
band is masked; `arrayArgmax` returns the position of the first (lowest
index) occurrence of the maximum.
-/

set_option autoImplicit false

/-- EE `toInt`: cast to a signed integer by truncation toward zero. -/
def eeToInt (q : ℚ) : ℤ := if 0 ≤ q then ⌊q⌋ else ⌈q⌉

/-- Binary maximum on rationals (concrete, so that the kernel can evaluate
it); agrees with `max`. -/
def maxQ (x y : ℚ) : ℚ := if x ≤ y then y else x

/-- EE `divide` per pixel: masked if either operand is masked; division by
zero returns 0 (documented EE behaviour for `Image.divide`). -/
def eeDivide : Option ℚ → Option ℚ → Option ℚ
  | some x, some y => some (if y = 0 then 0 else x / y)
  | _, _ => none

/-- EE `Reducer.sum` over an image collection, at one pixel: masked when
every input is masked, otherwise the sum of the unmasked inputs. -/
def sumReduce (xs : List (Option ℚ)) : Option ℚ :=
  if xs.all (fun o => o.isNone) then none else some (xs.filterMap id).sum

/-- Interior loop of the EE `Reducer.mode` model: fold over the remaining
values, keeping the candidate with the larger count in `all` (ties broken
toward the smaller value). -/
def pickMode (all : List ℤ) : List ℤ → ℤ → ℤ
  | [], b => b
  | v :: rest, b =>
      pickMode all rest
        (if all.count v > all.count b ∨ (all.count v = all.count b ∧ v < b) then v else b)

/-- EE `Reducer.mode` over an image collection, at one pixel: masked when
every input is masked, otherwise the most frequent unmasked value (ties
broken toward the smallest value, the behaviour inferred for EE's mode). -/
def modeReduce (xs : List (Option ℤ)) : Option ℤ :=
  match xs.filterMap id with
  | [] => none
  | v :: rest => some (pickMode (v :: rest) rest v)

/-- Insertion step for the sorted list used by the median model. -/
def insertQ (x : ℚ) : List ℚ → List ℚ
  | [] => [x]
  | y :: ys => if x ≤ y then x :: y :: ys else y :: insertQ x ys

/-- Insertion sort on rationals (used to model EE's median reducer). -/
def sortQ : List ℚ → List ℚ
  | [] => []
  | x :: xs => insertQ x (sortQ xs)

/-- EE `Reducer.median` over an image collection, at one pixel: masked when
every input is masked; otherwise the middle element of the sorted unmasked
inputs (mean of the two middle elements for an even count). -/
def medianReduce (xs : List (Option ℚ)) : Option ℚ :=
  if sortQ (xs.filterMap id) = [] then none
  else if (sortQ (xs.filterMap id)).length % 2 = 1 then
    some ((sortQ (xs.filterMap id)).getD ((sortQ (xs.filterMap id)).length / 2) 0)
  else
    some (((sortQ (xs.filterMap id)).getD ((sortQ (xs.filterMap id)).length / 2 - 1) 0 +
      (sortQ (xs.filterMap id)).getD ((sortQ (xs.filterMap id)).length / 2) 0) / 2)

/-- EE `arrayReduce(Reducer.max, [0])` followed by `arrayGet([0])` on a 1-D
array pixel: the greatest entry of the list. -/
def maxList : List ℚ → ℚ
  | [] => 0
  | [x] => x
  | x :: y :: rest => maxQ x (maxList (y :: rest))

/-- EE `arrayArgmax` followed by `arrayGet([0])` on a 1-D array pixel: the
index of the first occurrence of the maximum (lowest index wins ties). -/
def argmaxFirst : List ℚ → ℕ
  | [] => 0
  | [_] => 0
  | x :: y :: rest => if maxList (y :: rest) > x then argmaxFirst (y :: rest) + 1 else 0

/-- EE `toArray` at one pixel: masked where any input band is masked,
otherwise the vector of band values. -/
def toArrayPixel (bands : List (Option ℚ)) : Option (List ℚ) :=
  if bands.all (fun o => o.isSome) then some (bands.filterMap id) else none

/-- Fixed ordered probability band names of `DynamicWorld` (dw.py). -/
def probability_bands : List String :=
  [r"water", r"trees", r"grass", r"flooded_vegetation", r"crops",
   r"shrub_and_scrub", r"built", r"bare", r"snow_and_ice"]

/-- `DynamicWorld.get_mode_confidence` at one pixel.  `obs` is the series of
per-image values of the compared band (masked entries are `none`), `target`
the pixel of the target image.  The code builds, per image, a binary match
image masked by the band's validity mask, sums the matches, sums the
validity masks, divides, multiplies by 100 and casts with `toInt`. -/
def get_mode_confidence (obs : List (Option ℤ)) (target : Option ℤ) : Option ℤ :=
  let matchSum := sumReduce (obs.map (fun o =>
    match o, target with
    | some v, some t => some (if v = t then (1 : ℚ) else 0)
    | _, _ => none))
  let max_obs_count := sumReduce (obs.map (fun o => some (if o.isSome then (1 : ℚ) else 0)))
  (eeDivide matchSum max_obs_count).map (fun q => eeToInt (q * 100))

/-- `DynamicWorld.get_mode_label` at one pixel: the mode of the label band
over the series, paired with `get_mode_confidence` against that mode. -/
def get_mode_label (obs : List (Option ℤ)) : Option ℤ × Option ℤ :=
  let label := modeReduce obs
  (label, get_mode_confidence obs label)

/-- `DynamicWorld.get_max_median_confidence` at one pixel: given the array
pixel of per-class median probabilities, reduce with max, multiply by 100
and cast with `toInt`. -/
def get_max_median_confidence (median_arr : Option (List ℚ)) : Option ℤ :=
  median_arr.map (fun l => eeToInt (maxList l * 100))

/-- `DynamicWorld.get_max_median_label` at one pixel.  `obsPerClass` lists,
for each probability band in `probability_bands` order, the series of
per-image probabilities at the pixel.  The code takes the per-band median,
concatenates the bands with `toArray`, takes `arrayArgmax` as the label and
`get_max_median_confidence` of the same array as the confidence. -/
def get_max_median_label (obsPerClass : List (List (Option ℚ))) :
    Option ℕ × Option ℤ :=
  let median_arr := toArrayPixel (obsPerClass.map medianReduce)
  (median_arr.map argmaxFirst, get_max_median_confidence median_arr)

/-- Number of valid (unmasked) observations at a pixel. -/
def validCount (obs : List (Option ℤ)) : ℕ := (obs.filterMap id).length

/-- Number of valid observations equal to `t` at a pixel. -/
def matchCount (obs : List (Option ℤ)) (t : ℤ) : ℕ := (obs.filterMap id).count t

/-!
Embedding of `base.py` (`BaseCollector`).

`get_intervals` wraps `pandas.period_range(start, end, freq)` followed by
`to_timestamp(how='start').normalize()` / `to_timestamp(how='end').normalize()`:
the list of calendar periods from the period containing `start` to the
period containing `end` (empty when the former is after the latter; pandas
raises `ValueError` for an invalid period-frequency string, and raises
nothing when `start > end`).  Dates are modelled structurally as
year/month/day.  The model implements the calendar semantics of the period
frequencies `M` (monthly) and `Y`/`A` (yearly) that the spec names, and it
classifies a fixed set of strings (`MS`, `YS`, `X`) that pandas rejects
with `ValueError` — `MS`/`YS` are date-offset aliases that are not period
frequencies.  All other strings (further valid pandas period aliases such
as `Q`, `D`, `W` or `H`, and the anchored or multiplied forms) are outside
the model's scope: `get_intervals` returns `none` on them and the theorems
assert nothing about them.  `strftime('%Y-%m-%d')` is a bijection on
normalized dates and is left implicit.
-/

/-- A calendar date (valid when `1 ≤ m ≤ 12` and `1 ≤ d ≤ daysInMonth`). -/
structure CalDate where
  y : ℕ
  m : ℕ
  d : ℕ
deriving DecidableEq, Repr

/-- Lexicographic order on dates. -/
def CalDate.le (a b : CalDate) : Prop :=
  a.y < b.y ∨ (a.y = b.y ∧ (a.m < b.m ∨ (a.m = b.m ∧ a.d ≤ b.d)))

/-- Strict lexicographic order on dates. -/
def CalDate.lt (a b : CalDate) : Prop :=
  a.y < b.y ∨ (a.y = b.y ∧ (a.m < b.m ∨ (a.m = b.m ∧ a.d < b.d)))

instance (a b : CalDate) : Decidable (CalDate.le a b) := by
  unfold CalDate.le; infer_instance

instance (a b : CalDate) : Decidable (CalDate.lt a b) := by
  unfold CalDate.lt; infer_instance

@[simp] lemma CalDate.mk_y (y m d : ℕ) : (CalDate.mk y m d).y = y := rfl

@[simp] lemma CalDate.mk_m (y m d : ℕ) : (CalDate.mk y m d).m = m := rfl

@[simp] lemma CalDate.mk_d (y m d : ℕ) : (CalDate.mk y m d).d = d := rfl

/-- Gregorian leap-year test. -/
def isLeap (y : ℕ) : Bool := (y % 4 == 0 && y % 100 != 0) || (y % 400 == 0)

/-- Number of days of month `m` of year `y`. -/
def daysInMonth (y m : ℕ) : ℕ :=
  if m = 2 then (if isLeap y then 29 else 28)
  else if m = 4 ∨ m = 6 ∨ m = 9 ∨ m = 11 then 30
  else 31

/-- A date is valid when its month and day are within calendar range. -/
def CalDate.Valid (dt : CalDate) : Prop :=
  1 ≤ dt.m ∧ dt.m ≤ 12 ∧ 1 ≤ dt.d ∧ dt.d ≤ daysInMonth dt.y dt.m

instance (dt : CalDate) : Decidable (CalDate.Valid dt) := by
  unfold CalDate.Valid; infer_instance

/-- The calendar successor of a date. -/
def nextDay (dt : CalDate) : CalDate :=
  if dt.d < daysInMonth dt.y dt.m then ⟨dt.y, dt.m, dt.d + 1⟩
  else if dt.m < 12 then ⟨dt.y, dt.m + 1, 1⟩
  else ⟨dt.y + 1, 1, 1⟩

/-- The calendar frequencies of the model (spec §4.1 names monthly and
yearly as the recognized calendar frequencies). -/
inductive Freq where
  | monthly : Freq
  | yearly : Freq
deriving DecidableEq, Repr

/-- Classification of a frequency string within the model's scope:
`valid f` for a pandas period frequency whose calendar semantics the model
implements, `invalid` for a string `pandas.period_range` rejects with
`ValueError`. -/
inductive FreqClass where
  | valid : Freq → FreqClass
  | invalid : FreqClass
deriving DecidableEq, Repr

/-- Frequency strings in the model's scope.  `M` and `Y`/`A` are period
frequencies implemented by the model; `MS` and `YS` are date-offset
aliases that are *not* period frequencies (pandas raises `ValueError` for
them), as does the non-alias `X`.  Any other string — including further
valid pandas period aliases such as `Q`, `D`, `W`, `H` and anchored or
multiplied forms — is outside the model (`none`). -/
def parseFreq (s : String) : Option FreqClass :=
  if s = r"M" then some (FreqClass.valid Freq.monthly)
  else if s = r"Y" ∨ s = r"A" then some (FreqClass.valid Freq.yearly)
  else if s = r"MS" ∨ s = r"YS" ∨ s = r"X" then some FreqClass.invalid
  else none

/-- Index of the period of frequency `f` containing a date (months since
year 0, or the year itself). -/
def periodIdx : Freq → CalDate → ℕ
  | Freq.monthly, dt => dt.y * 12 + (dt.m - 1)
  | Freq.yearly, dt => dt.y

/-- First day of period `i`: `to_timestamp(how='start').normalize()`. -/
def periodFirst : Freq → ℕ → CalDate
  | Freq.monthly, i => ⟨i / 12, i % 12 + 1, 1⟩
  | Freq.yearly, i => ⟨i, 1, 1⟩

/-- Last day of period `i`: `to_timestamp(how='end').normalize()`. -/
def periodLast : Freq → ℕ → CalDate
  | Freq.monthly, i => ⟨i / 12, i % 12 + 1, daysInMonth (i / 12) (i % 12 + 1)⟩
  | Freq.yearly, i => ⟨i, 12, 31⟩

/-- `pandas.period_range(start, end, freq)`: period indices from the period
containing `start` to the period containing `end`. -/
def period_range (f : Freq) (s e : CalDate) : List ℕ :=
  (List.range (periodIdx f e + 1 - periodIdx f s)).map (fun k => periodIdx f s + k)

/-- One `{'start': ..., 'end': ...}` dictionary of `get_intervals`
(`stop` stands for the dictionary's `end` key, a reserved word in Lean). -/
structure DateInterval where
  start : CalDate
  stop : CalDate
deriving DecidableEq, Repr

/-- The pandas `ValueError` raised for an unrecognized frequency string. -/
inductive PdError where
  | valueError : PdError
deriving DecidableEq, Repr

instance {ε α : Type} [DecidableEq ε] [DecidableEq α] : DecidableEq (Except ε α) := fun x y =>
  match x, y with
  | Except.error e₁, Except.error e₂ =>
      if h : e₁ = e₂ then isTrue (by rw [h]) else isFalse (fun hc => h (by injection hc))
  | Except.error _, Except.ok _ => isFalse (fun hc => Except.noConfusion hc)
  | Except.ok _, Except.error _ => isFalse (fun hc => Except.noConfusion hc)
  | Except.ok a₁, Except.ok a₂ =>
      if h : a₁ = a₂ then isTrue (by rw [h]) else isFalse (fun hc => h (by injection hc))

/-- `BaseCollector.get_intervals`: periods between `start` and `end` at the
nominated frequency, as start/end date dictionaries.  The outer `Option`
restricts the model to the frequency strings it covers: `none` for a
string outside the model's scope (about which nothing is asserted),
`some (Except.error ...)` when pandas raises `ValueError`, and
`some (Except.ok ...)` for the generated interval list. -/
def get_intervals (s e : CalDate) (freq : String) :
    Option (Except PdError (List DateInterval)) :=
  match parseFreq freq with
  | none => none
  | some FreqClass.invalid => some (Except.error PdError.valueError)
  | some (FreqClass.valid f) =>
      some (Except.ok
        ((period_range f s e).map (fun i => ⟨periodFirst f i, periodLast f i⟩)))

/-!
Client-side model of `BaseCollector.reduce_to_intervals`.

Every EE call in the loop body (`filterDate`, `reduce`, `rename`, `set`,
`ee.List.add`) only builds a computation graph on the client and raises
nothing; the one operation that can raise inside the `try` block is the
Python dictionary lookup `_reducer_lut[method]` (a `KeyError`).  The
`except BaseException` clause prints and continues, so a raising interval
contributes no image.  `ee.Date` equality (`d1 == d2`) compares the
serialized client objects, so two dates built from equal strings compare
equal.  `filterDate(d1)` selects a 1-millisecond range starting at `d1`;
`filterDate(d1, d2)` selects `d1 <= t < d2` (end exclusive).  Timestamps
and interval bounds are in epoch milliseconds.
-/

/-- A collection image as the client sees it for date filtering: its
`system:time_start` timestamp in epoch milliseconds. -/
structure TimedImage where
  ts : ℕ
deriving DecidableEq, Repr

/-- The keys of `BaseCollector._reducer_lut`, the name-to-reducer table. -/
inductive ReducerKind where
  | mean : ReducerKind
  | median : ReducerKind
  | mode : ReducerKind
  | maxR : ReducerKind
  | minR : ReducerKind
deriving DecidableEq, Repr

/-- `BaseCollector._reducer_lut` as a partial lookup (`none` models the
`KeyError` raised by `_reducer_lut[method]`). -/
def reducer_lut (method : String) : Option ReducerKind :=
  if method = r"mean" then some ReducerKind.mean
  else if method = r"median" then some ReducerKind.median
  else if method = r"mode" then some ReducerKind.mode
  else if method = r"max" then some ReducerKind.maxR
  else if method = r"min" then some ReducerKind.minR
  else none

/-- An interval dictionary with bounds in epoch milliseconds. -/
structure MsInterval where
  start : ℕ
  stop : ℕ
deriving DecidableEq, Repr

/-- The lazily-built image emitted for one interval: the filtered
sub-collection, the reducer, the optional rename and the attached
`system:time_start` / `system:time_end` metadata. -/
structure ReducedImage where
  source : List TimedImage
  reducer : ReducerKind
  renamed : Option (List String)
  timeStart : ℕ
  timeEnd : Option ℕ
deriving DecidableEq, Repr

/-- `collection.filterDate(d)`: the 1-millisecond range `[d, d+1)`. -/
def filterDate1 (coll : List TimedImage) (d : ℕ) : List TimedImage :=
  coll.filter (fun im => decide (d ≤ im.ts) && decide (im.ts < d + 1))

/-- `collection.filterDate(d1, d2)`: start inclusive, end exclusive. -/
def filterDate2 (coll : List TimedImage) (d1 d2 : ℕ) : List TimedImage :=
  coll.filter (fun im => decide (d1 ≤ im.ts) && decide (im.ts < d2))

/-- The Python `KeyError` of the reducer lookup. -/
inductive ClientError where
  | keyError : ClientError
deriving DecidableEq, Repr

/-- The `try` body of `reduce_to_intervals` for one interval: filter the
collection by the interval's dates (exact 1-ms range when the two serialized
dates are equal), reduce, optionally rename, and attach either the
aggregation period or the interpolated midpoint as metadata.  The only
client-side raise is the reducer lookup. -/
def intervalBody (coll : List TimedImage) (iv : MsInterval) (method : String)
    (names : Option (List String)) (meta_type : String) :
    Except ClientError ReducedImage :=
  match reducer_lut method with
  | none => Except.error ClientError.keyError
  | some r =>
      let subset := if iv.start = iv.stop then filterDate1 coll iv.start
        else filterDate2 coll iv.start iv.stop
      if meta_type = r"aggregation_period" then
        Except.ok ⟨subset, r, names, iv.start, some iv.stop⟩
      else
        Except.ok ⟨subset, r, names, iv.start + (iv.stop - iv.start) / 2, none⟩

/-- `BaseCollector.reduce_to_intervals`: iterate over the intervals,
appending the image built for each one; an interval whose body raises is
skipped (`except BaseException: print; continue`) and the loop goes on.
The function itself never raises. -/
def reduce_to_intervals (coll : List TimedImage) (intervals : List MsInterval)
    (method : String) (names : Option (List String)) (meta_type : String) :
    List ReducedImage :=
  intervals.foldl
    (fun images iv =>
      match intervalBody coll iv method names meta_type with
      | Except.ok im => images ++ [im]
      | Except.error _ => images)
    []

/-!
Embedding of `metrics.py` (`Metrics`).

`get_error_matrix` renames the two images, draws a stratified sample via
the backend (`stratifiedSample`, deterministic for a fixed seed), and
cross-tabulates the sampled (reference, prediction) pairs with
`errorMatrix` / `accuracy`.  The backend is a parameter: a function from
the sampling request to the sampled class pairs.  `get_normalised_error_matrix`
is `DataFrame.div(df.sum(axis=1), axis=0)`: pandas float division yields
NaN for 0/0 and signed infinity for x/0 with x nonzero.
-/

/-- The arguments the code passes to `stratifiedSample`. -/
structure SampleSpec where
  refBand : String
  predBand : String
  numPoints : ℕ
  classBand : String
  region : Option String
  scale : ℚ
  seed : ℤ
  geometries : Bool
deriving DecidableEq, Repr

/-- The keyword arguments of `get_error_matrix` (`None` when omitted). -/
structure MetricsKwargs where
  region : Option String
  seed : Option ℤ
  scale : Option ℚ
  npoints : Option ℕ
deriving DecidableEq, Repr

/-- The keyword parsing and `stratifiedSample` call of `get_error_matrix`:
`seed` defaults to 42, `scale` to 10, `npoints` to 2000, `region` to None. -/
def buildSampleSpec (kwargs : MetricsKwargs) : SampleSpec :=
  ⟨r"reference", r"prediction", kwargs.npoints.getD 2000, r"reference",
    kwargs.region, kwargs.scale.getD 10, kwargs.seed.getD 42, false⟩

/-- EE `errorMatrix('reference', 'prediction')` over the sampled pairs:
counts of (reference class, predicted class), sized by the largest class
value seen. -/
def errorMatrixFromSamples (samples : List (ℕ × ℕ)) : List (List ℕ) :=
  let n := (samples.map (fun p => max p.1 p.2)).foldl max 0 + 1
  (List.range n).map (fun i => (List.range n).map (fun j => samples.count (i, j)))

/-- EE `accuracy()`: correctly classified fraction of the samples. -/
def accuracyFromSamples (samples : List (ℕ × ℕ)) : ℚ :=
  if samples.length = 0 then 0
  else ((samples.filter (fun p => p.1 = p.2)).length : ℚ) / (samples.length : ℚ)

/-- `Metrics.get_error_matrix`, with the backend sampler as an explicit
function argument. -/
def get_error_matrix (backend : SampleSpec → List (ℕ × ℕ)) (kwargs : MetricsKwargs) :
    List (List ℕ) × ℚ :=
  let samples := backend (buildSampleSpec kwargs)
  (errorMatrixFromSamples samples, accuracyFromSamples samples)

/-- A pandas float cell value: a rational, NaN, or a signed infinity. -/
inductive PdVal where
  | nan : PdVal
  | posInf : PdVal
  | negInf : PdVal
  | val : ℚ → PdVal
deriving DecidableEq, Repr

/-- Pandas scalar division: NaN for 0/0, signed infinity for x/0. -/
def pandasDiv (x s : ℚ) : PdVal :=
  if s = 0 then (if x = 0 then PdVal.nan else if 0 < x then PdVal.posInf else PdVal.negInf)
  else PdVal.val (x / s)

/-- `Metrics.get_normalised_error_matrix`: divide each row of the matrix by
its row sum (the `labels` argument only names the axes). -/
def get_normalised_error_matrix (em : List (List ℚ)) (labels : List String) :
    List (List PdVal) :=
  em.map (fun row => row.map (fun x => pandasDiv x row.sum))

/-!
Helper lemmas about the per-pixel mode/confidence computation.
-/

lemma validCount_eq_zero_iff (obs : List (Option ℤ)) :
    validCount obs = 0 ↔ obs.all (fun o => o.isNone) = true := by
  induction obs with
  | nil => simp [validCount]
  | cons o rest ih => cases o <;> simp [validCount] at ih ⊢ <;> exact ih

lemma maskSum_eval (obs : List (Option ℤ)) :
    (List.filterMap id (obs.map (fun o => some (if o.isSome then (1 : ℚ) else 0)))).sum =
      (validCount obs : ℚ) := by
  induction obs with
  | nil => simp [validCount]
  | cons o rest ih =>
      cases o <;> simp [validCount, List.filterMap_map] at ih ⊢ <;> rw [ih] <;> try ring

lemma matchList_eval (obs : List (Option ℤ)) (t : ℤ) :
    (obs.map (fun o =>
      match o, (some t : Option ℤ) with
      | some v, some t' => some (if v = t' then (1 : ℚ) else 0)
      | _, _ => none)) = obs.map (fun o => o.map (fun v => if v = t then (1 : ℚ) else 0)) := by
  induction obs with
  | nil => rfl
  | cons o rest ih => cases o <;> simp [ih]

lemma matchSum_eval (obs : List (Option ℤ)) (t : ℤ) :
    (List.filterMap id (obs.map (fun o => o.map (fun v => if v = t then (1 : ℚ) else 0)))).sum =
      (matchCount obs t : ℚ) := by
  induction obs with
  | nil => simp [matchCount]
  | cons o rest ih =>
      cases o with
      | none => simpa [matchCount] using ih
      | some v =>
          by_cases hv : v = t <;>
            simp [matchCount, List.count_cons, hv, List.filterMap_map] at ih ⊢ <;> rw [ih] <;>
              try ring

lemma matchList_all_none_iff (obs : List (Option ℤ)) (t : ℤ) :
    ((obs.map (fun o => o.map (fun v => if v = t then (1 : ℚ) else 0))).all
      (fun o => o.isNone)) = obs.all (fun o => o.isNone) := by
  induction obs with
  | nil => rfl
  | cons o rest ih => cases o <;> simp [ih]

lemma get_mode_confidence_target_none (obs : List (Option ℤ)) :
    get_mode_confidence obs none = none := by
  have hmap : (obs.map (fun o =>
      match o, (none : Option ℤ) with
      | some v, some t => some (if v = t then (1 : ℚ) else 0)
      | _, _ => none)) = obs.map (fun _ => none) := by
    induction obs with
    | nil => rfl
    | cons o rest ih => cases o <;> simp [ih]
  have hall : ((obs.map (fun _ => (none : Option ℚ))).all (fun o => o.isNone)) = true := by
    induction obs with
    | nil => rfl
    | cons o rest ih => simpa using ih
  simp [get_mode_confidence, hmap, sumReduce, hall, eeDivide]

lemma modeReduce_some_pos (obs : List (Option ℤ)) (t : ℤ) (h : modeReduce obs = some t) :
    0 < validCount obs := by
  unfold modeReduce at h
  unfold validCount
  cases hf : List.filterMap id obs with
  | nil => rw [hf] at h; exact absurd h (by simp)
  | cons v rest => simp [hf]

lemma modeReduce_none_of_zero (obs : List (Option ℤ)) (h : validCount obs = 0) :
    modeReduce obs = none := by
  unfold validCount at h
  unfold modeReduce
  cases hf : List.filterMap id obs with
  | nil => rfl
  | cons v rest => rw [hf] at h; simp at h

lemma get_mode_confidence_eval (obs : List (Option ℤ)) (t : ℤ)
    (hv : 0 < validCount obs) :
    get_mode_confidence obs (some t) =
      some ⌊(100 * (matchCount obs t : ℚ)) / (validCount obs : ℚ)⌋ := by
  have hvne : ¬ (obs.all (fun o => o.isNone) = true) := by
    rw [← validCount_eq_zero_iff]; omega
  unfold get_mode_confidence
  rw [matchList_eval]
  have h1 : sumReduce (obs.map (fun o => o.map (fun v => if v = t then (1 : ℚ) else 0))) =
      some (matchCount obs t : ℚ) := by
    unfold sumReduce
    rw [matchList_all_none_iff, if_neg hvne, matchSum_eval]
  have h2 : sumReduce (obs.map (fun o => some (if o.isSome then (1 : ℚ) else 0))) =
      some (validCount obs : ℚ) := by
    unfold sumReduce
    have : ¬ ((obs.map (fun o => some (if o.isSome then (1 : ℚ) else 0))).all
        (fun o => o.isNone) = true) := by
      cases obs with
      | nil => simp [validCount] at hv
      | cons o rest => simp
    rw [if_neg this, maskSum_eval]
  rw [h1, h2]
  have hvq : ((validCount obs : ℚ)) ≠ 0 := by
    exact_mod_cast Nat.pos_iff_ne_zero.mp hv
  have hnn : (0 : ℚ) ≤ (matchCount obs t : ℚ) / (validCount obs : ℚ) * 100 := by
    positivity
  simp only [eeDivide, if_neg hvq, Option.map_some']
  rw [eeToInt, if_pos hnn]
  congr 1
  rw [div_mul_eq_mul_div, mul_comm]

/-- C1 (amended): per pixel, `get_mode_label` masks both label and
confidence when there is no valid observation; otherwise the confidence is
`100 * matchCount / validObservationCount` truncated toward zero (the
`toInt` cast), i.e. its floor — not rounded to nearest — and when every
valid observation equals the mode the confidence is exactly 100. -/
theorem get_mode_label_spec (obs : List (Option ℤ)) :
    (validCount obs = 0 → get_mode_label obs = (none, none)) ∧
    (∀ t : ℤ, modeReduce obs = some t →
      get_mode_label obs =
        (some t, some ⌊(100 * (matchCount obs t : ℚ)) / (validCount obs : ℚ)⌋)) ∧
    (∀ t : ℤ, modeReduce obs = some t → matchCount obs t = validCount obs →
      (get_mode_label obs).2 = some 100) := by
  refine ⟨?_, ?_, ?_⟩
  · intro h
    have hm : modeReduce obs = none := modeReduce_none_of_zero obs h
    simp [get_mode_label, hm, get_mode_confidence_target_none]
  · intro t ht
    have hv : 0 < validCount obs := modeReduce_some_pos obs t ht
    simp [get_mode_label, ht, get_mode_confidence_eval obs t hv]
  · intro t ht hmatch
    have hv : 0 < validCount obs := modeReduce_some_pos obs t ht
    have h := get_mode_confidence_eval obs t hv
    have hvq : ((validCount obs : ℚ)) ≠ 0 := by
      exact_mod_cast Nat.pos_iff_ne_zero.mp hv
    simp only [get_mode_label, ht, h]
    rw [hmatch, mul_div_assoc, div_self hvq, mul_one]
    norm_num

/-- C1 witness: three observations, the two valid ones agreeing on label 3:
label 3 with confidence 100, obtained from `get_mode_label_spec`. -/
theorem get_mode_label_spec_witness :
    get_mode_label [some 3, none, some 3] = (some 3, some 100) := by
  have hmode : modeReduce [some 3, none, some 3] = some 3 := by decide
  have h := (get_mode_label_spec [some 3, none, some 3]).2.1 3 hmode
  rw [h]
  have hm : matchCount [some 3, none, some 3] 3 = 2 := by decide
  have hv : validCount [some 3, none, some 3] = 2 := by decide
  rw [hm, hv]
  norm_num

/-- C1 counterexample: for the series [1, 1, 2] the mode is 1 with 2 of 3
valid observations matching; the code computes trunc(200/3) = 66, while the
claimed `round(100 * matchCount / validObservationCount)` is 67. -/
theorem get_mode_label_round_counterexample :
    get_mode_label [some 1, some 1, some 2] = (some 1, some 66) ∧
    round ((100 * (matchCount [some 1, some 1, some 2] 1 : ℚ)) /
        (validCount [some 1, some 1, some 2] : ℚ)) = 67 := by
  constructor
  · have h1 : modeReduce [some 1, some 1, some 2] = some 1 := by
      simp [modeReduce, List.filterMap, pickMode]
    simp [get_mode_label, h1, get_mode_confidence, sumReduce, List.filterMap, eeDivide, eeToInt]
    norm_num
  · have hm : matchCount [some 1, some 1, some 2] 1 = 2 := by decide
    have hv : validCount [some 1, some 1, some 2] = 3 := by decide
    rw [hm, hv, round_eq]
    rw [show (100 * ((2 : ℕ) : ℚ)) / ((3 : ℕ) : ℚ) + 1 / 2 = 403 / 6 by norm_num]
    rw [Int.floor_eq_iff] <;> norm_num

/-!
Helper lemmas about the per-pixel argmax-of-medians computation.
-/

lemma insertQ_length (x : ℚ) (l : List ℚ) : (insertQ x l).length = l.length + 1 := by
  induction l with
  | nil => rfl
  | cons y ys ih => by_cases h : x ≤ y <;> simp [insertQ, h, ih]

lemma sortQ_length (l : List ℚ) : (sortQ l).length = l.length := by
  induction l with
  | nil => rfl
  | cons x xs ih => simp [sortQ, insertQ_length, ih]

lemma insertQ_mem (x : ℚ) (l : List ℚ) (a : ℚ) (h : a ∈ insertQ x l) :
    a = x ∨ a ∈ l := by
  induction l with
  | nil => simpa [insertQ] using h
  | cons y ys ih =>
      by_cases hxy : x ≤ y
      · simp only [insertQ, if_pos hxy, List.mem_cons] at h
        rcases h with h | h
        · exact Or.inl h
        · exact Or.inr (List.mem_cons.mpr h)
      · simp only [insertQ, if_neg hxy, List.mem_cons] at h
        rcases h with h | h
        · exact Or.inr (List.mem_cons.mpr (Or.inl h))
        · rcases ih h with h' | h'
          · exact Or.inl h'
          · exact Or.inr (List.mem_cons.mpr (Or.inr h'))

lemma sortQ_mem (l : List ℚ) (a : ℚ) (h : a ∈ sortQ l) : a ∈ l := by
  induction l generalizing a with
  | nil => simpa [sortQ] using h
  | cons x xs ih =>
      rcases insertQ_mem x (sortQ xs) a h with h' | h'
      · simp [h']
      · exact List.mem_cons_of_mem x (ih a h')

lemma filterMap_id_ne_nil (xs : List (Option ℚ)) (h : xs.any (fun o => o.isSome) = true) :
    xs.filterMap id ≠ [] := by
  rcases List.any_eq_true.mp h with ⟨o, ho, hso⟩
  rcases Option.isSome_iff_exists.mp hso with ⟨v, rfl⟩
  intro hc
  have hv : v ∈ xs.filterMap id := List.mem_filterMap.mpr ⟨some v, ho, rfl⟩
  rw [hc] at hv
  exact absurd hv (List.not_mem_nil v)

lemma sortQ_ne_nil (l : List ℚ) (h : l ≠ []) : sortQ l ≠ [] := by
  intro hc
  have := sortQ_length l
  rw [hc] at this
  exact h (List.length_eq_zero.mp this.symm)

lemma medianReduce_isSome (xs : List (Option ℚ)) (h : xs.any (fun o => o.isSome) = true) :
    ∃ q, medianReduce xs = some q := by
  have hsne : sortQ (xs.filterMap id) ≠ [] := sortQ_ne_nil _ (filterMap_id_ne_nil xs h)
  unfold medianReduce
  by_cases hp : (sortQ (xs.filterMap id)).length % 2 = 1
  · exact ⟨_, by rw [if_neg hsne, if_pos hp]⟩
  · exact ⟨_, by rw [if_neg hsne, if_neg hp]⟩

lemma maxQ_left (x y : ℚ) (h : y ≤ x) : maxQ x y = x := by
  unfold maxQ
  by_cases hxy : x ≤ y
  · rw [if_pos hxy]; exact le_antisymm h hxy
  · rw [if_neg hxy]

lemma maxQ_right (x y : ℚ) (h : x ≤ y) : maxQ x y = y := by
  unfold maxQ; rw [if_pos h]

lemma argmaxFirst_spec (l : List ℚ) (h : l ≠ []) :
    argmaxFirst l < l.length ∧
    l.getD (argmaxFirst l) 0 = maxList l ∧
    ∀ j, j < argmaxFirst l → l.getD j 0 < maxList l := by
  induction l with
  | nil => exact absurd rfl h
  | cons x xs ih =>
      cases xs with
      | nil =>
          refine ⟨by simp [argmaxFirst], by simp [argmaxFirst, maxList], ?_⟩
          intro j hj
          simp [argmaxFirst] at hj
      | cons y rest =>
          obtain ⟨ih1, ih2, ih3⟩ := ih (by simp)
          have hadef : argmaxFirst (x :: y :: rest) =
              if maxList (y :: rest) > x then argmaxFirst (y :: rest) + 1 else 0 := rfl
          have hmdef : maxList (x :: y :: rest) = maxQ x (maxList (y :: rest)) := rfl
          by_cases hgt : maxList (y :: rest) > x
          · have ha : argmaxFirst (x :: y :: rest) = argmaxFirst (y :: rest) + 1 := by
              rw [hadef, if_pos hgt]
            have hm : maxList (x :: y :: rest) = maxList (y :: rest) := by
              rw [hmdef]
              exact maxQ_right x _ (le_of_lt hgt)
            refine ⟨?_, ?_, ?_⟩
            · rw [ha]; simpa using Nat.succ_lt_succ ih1
            · rw [ha, hm]; simpa using ih2
            · intro j hj
              rw [ha] at hj
              rw [hm]
              cases j with
              | zero => simpa using hgt
              | succ j' =>
                  have : j' < argmaxFirst (y :: rest) := Nat.lt_of_succ_lt_succ hj
                  simpa using ih3 j' this
          · have hle : maxList (y :: rest) ≤ x := le_of_not_lt hgt
            have ha : argmaxFirst (x :: y :: rest) = 0 := by
              rw [hadef, if_neg hgt]
            have hm : maxList (x :: y :: rest) = x := by
              rw [hmdef]
              exact maxQ_left x _ hle
            refine ⟨by rw [ha]; simp, by rw [ha, hm]; rfl, ?_⟩
            intro j hj
            rw [ha] at hj
            omega

lemma filterMap_id_all_some (l : List (Option ℚ)) (h : l.all (fun o => o.isSome) = true) :
    (l.filterMap id).length = l.length ∧
    ∀ k (hk : k < l.length), l.get ⟨k, hk⟩ = some ((l.filterMap id).getD k 0) := by
  induction l with
  | nil => exact ⟨rfl, fun k hk => absurd hk (by simp)⟩
  | cons o rest ih =>
      simp only [List.all_cons, Bool.and_eq_true] at h
      obtain ⟨ho, hrest⟩ := h
      rcases Option.isSome_iff_exists.mp ho with ⟨v, rfl⟩
      obtain ⟨ih1, ih2⟩ := ih hrest
      constructor
      · simpa using ih1
      · intro k hk
        cases k with
        | zero => simp
        | succ k' =>
            have hk' : k' < rest.length := by simpa using Nat.lt_of_succ_lt_succ hk
            simpa using ih2 k' hk'

/-- C2 (amended): per pixel, `get_max_median_label` computes the per-class
median vector `vals`, labels the pixel with the lowest index attaining the
maximum entry of `vals`, and sets the confidence to `100 * maxEntryValue`
truncated toward zero (the `toInt` cast) — not rounded to nearest. -/
theorem get_max_median_label_spec (obsPerClass : List (List (Option ℚ)))
    (hne : obsPerClass ≠ [])
    (hvalid : ∀ cls ∈ obsPerClass, cls.any (fun o => o.isSome) = true) :
    ∃ vals : List ℚ,
      vals.length = obsPerClass.length ∧
      (∀ k (hk : k < obsPerClass.length),
        medianReduce (obsPerClass.get ⟨k, hk⟩) = some (vals.getD k 0)) ∧
      get_max_median_label obsPerClass =
        (some (argmaxFirst vals), some (eeToInt (maxList vals * 100))) ∧
      argmaxFirst vals < vals.length ∧
      vals.getD (argmaxFirst vals) 0 = maxList vals ∧
      (∀ j, j < argmaxFirst vals → vals.getD j 0 < maxList vals) := by
  have hall : (obsPerClass.map medianReduce).all (fun o => o.isSome) = true := by
    rw [List.all_eq_true]
    intro o ho
    rcases List.mem_map.mp ho with ⟨cls, hcls, rfl⟩
    rcases medianReduce_isSome cls (hvalid cls hcls) with ⟨q, hq⟩
    simp [hq]
  refine ⟨(obsPerClass.map medianReduce).filterMap id, ?_, ?_, ?_, ?_⟩
  · obtain ⟨hlen, _⟩ := filterMap_id_all_some _ hall
    simpa using hlen
  · intro k hk
    obtain ⟨_, hget⟩ := filterMap_id_all_some _ hall
    have hk' : k < (obsPerClass.map medianReduce).length := by simpa using hk
    have h1 := hget k hk'
    rw [List.get_map] at h1
    exact h1
  · have harr : toArrayPixel (obsPerClass.map medianReduce) =
        some ((obsPerClass.map medianReduce).filterMap id) := by
      unfold toArrayPixel
      rw [if_pos hall]
    simp [get_max_median_label, harr, get_max_median_confidence]
  · have hvne : (obsPerClass.map medianReduce).filterMap id ≠ [] := by
      obtain ⟨hlen, _⟩ := filterMap_id_all_some _ hall
      intro hc
      rw [hc] at hlen
      exact hne (by simpa using List.length_eq_zero.mp hlen.symm)
    exact argmaxFirst_spec _ hvne

/-- C2 witness: medians [0.1, 0.7, 0.2] give label 1 and confidence 70, as
an instance of `get_max_median_label_spec` plus concrete evaluation. -/
theorem get_max_median_label_spec_witness :
    (∃ vals : List ℚ,
      vals.length = ([[some (1/10)], [some (7/10)], [some (1/5)]] :
          List (List (Option ℚ))).length ∧
      (∀ k (hk : k < ([[some (1/10)], [some (7/10)], [some (1/5)]] :
          List (List (Option ℚ))).length),
        medianReduce (([[some (1/10)], [some (7/10)], [some (1/5)]] :
          List (List (Option ℚ))).get ⟨k, hk⟩) = some (vals.getD k 0)) ∧
      get_max_median_label [[some (1/10)], [some (7/10)], [some (1/5)]] =
        (some (argmaxFirst vals), some (eeToInt (maxList vals * 100))) ∧
      argmaxFirst vals < vals.length ∧
      vals.getD (argmaxFirst vals) 0 = maxList vals ∧
      (∀ j, j < argmaxFirst vals → vals.getD j 0 < maxList vals)) ∧
    get_max_median_label [[some (1/10)], [some (7/10)], [some (1/5)]] =
      (some 1, some 70) := by
  constructor
  · exact get_max_median_label_spec _ (by simp) (by decide)
  · have hm : ∀ q : ℚ, medianReduce [some q] = some q := by
      intro q; simp [medianReduce, sortQ, insertQ, List.filterMap]
    simp [get_max_median_label, toArrayPixel, hm, List.filterMap, argmaxFirst, maxList, maxQ,
      get_max_median_confidence, eeToInt]
    norm_num

/-- C2 counterexample: a pixel whose median vector is [0.1, 0.706, 0.2]:
the code yields confidence trunc(70.6) = 70, while the claimed
`round(100 * maxEntryValue)` is 71. -/
theorem get_max_median_round_counterexample :
    get_max_median_label [[some (1/10)], [some (353/500)], [some (1/5)]] =
      (some 1, some 70) ∧
    round ((353 : ℚ) / 500 * 100) = 71 := by
  constructor
  · have hm : ∀ q : ℚ, medianReduce [some q] = some q := by
      intro q; simp [medianReduce, sortQ, insertQ, List.filterMap]
    simp [get_max_median_label, toArrayPixel, hm, List.filterMap, argmaxFirst, maxList, maxQ,
      get_max_median_confidence, eeToInt]
    norm_num
  · rw [round_eq]
    rw [show (353 : ℚ) / 500 * 100 + 1 / 2 = 711 / 10 by norm_num]
    rw [Int.floor_eq_iff] <;> norm_num

/-!
Helper lemmas for the confidence-range and mask-pairing invariants.
-/

lemma eeToInt_bounds (q : ℚ) (h0 : 0 ≤ q) (h1 : q ≤ 100) :
    0 ≤ eeToInt q ∧ eeToInt q ≤ 100 := by
  unfold eeToInt
  rw [if_pos h0]
  refine ⟨Int.floor_nonneg.mpr h0, ?_⟩
  have h2 : (⌊q⌋ : ℤ) ≤ ⌊(100 : ℚ)⌋ := Int.floor_le_floor h1
  simpa using h2

lemma modeReduce_some_of_pos (obs : List (Option ℤ)) (h : 0 < validCount obs) :
    ∃ t, modeReduce obs = some t := by
  unfold validCount at h
  unfold modeReduce
  cases hf : List.filterMap id obs with
  | nil => rw [hf] at h; simp at h
  | cons v rest => exact ⟨_, rfl⟩

lemma getD_mem_of_lt (l : List ℚ) (k : ℕ) (hk : k < l.length) : l.getD k 0 ∈ l := by
  rw [List.getD_eq_getElem l 0 hk]
  exact List.getElem_mem hk

lemma maxList_mem (l : List ℚ) (h : l ≠ []) : maxList l ∈ l := by
  induction l with
  | nil => exact absurd rfl h
  | cons x xs ih =>
      cases xs with
      | nil => simp [maxList]
      | cons y rest =>
          have hmdef : maxList (x :: y :: rest) = maxQ x (maxList (y :: rest)) := rfl
          rw [hmdef]
          unfold maxQ
          by_cases hxy : x ≤ maxList (y :: rest)
          · rw [if_pos hxy]
            exact List.mem_cons_of_mem x (ih (by simp))
          · rw [if_neg hxy]
            exact List.mem_cons_self x _

lemma medianReduce_range (cls : List (Option ℚ)) (q : ℚ) (h : medianReduce cls = some q)
    (hr : ∀ p : ℚ, some p ∈ cls → 0 ≤ p ∧ p ≤ 1) : 0 ≤ q ∧ q ≤ 1 := by
  have hmem : ∀ x ∈ sortQ (cls.filterMap id), 0 ≤ x ∧ x ≤ 1 := by
    intro x hx
    have hx' : x ∈ cls.filterMap id := sortQ_mem _ x hx
    rcases List.mem_filterMap.mp hx' with ⟨o, ho, hid⟩
    cases o with
    | none => exact absurd hid (by simp)
    | some p =>
        have hpx : p = x := by simpa using hid
        subst hpx
        exact hr p ho
  unfold medianReduce at h
  by_cases h0 : sortQ (cls.filterMap id) = []
  · rw [if_pos h0] at h
    exact absurd h (by simp)
  · rw [if_neg h0] at h
    have hlen : 0 < (sortQ (cls.filterMap id)).length :=
      List.length_pos.mpr h0
    by_cases hp : (sortQ (cls.filterMap id)).length % 2 = 1
    · rw [if_pos hp] at h
      injection h with h
      subst h
      exact hmem _ (getD_mem_of_lt _ _ (by omega))
    · rw [if_neg hp] at h
      injection h with h
      subst h
      have hb1 := hmem _ (getD_mem_of_lt (sortQ (cls.filterMap id))
        ((sortQ (cls.filterMap id)).length / 2 - 1) (by omega))
      have hb2 := hmem _ (getD_mem_of_lt (sortQ (cls.filterMap id))
        ((sortQ (cls.filterMap id)).length / 2) (by omega))
      constructor <;> [linarith [hb1.1, hb2.1]; linarith [hb1.2, hb2.2]]

/-- C9: for pixels with at least one valid observation and probabilities in
[0, 1], both confidence outputs are integers in [0, 100]; and each
aggregator's confidence band is masked at exactly the pixels where its
label band is masked. -/
theorem confidence_image_invariants (obs : List (Option ℤ))
    (obsPerClass : List (List (Option ℚ)))
    (hobs : 0 < validCount obs)
    (hne : obsPerClass ≠ [])
    (hvalid : ∀ cls ∈ obsPerClass, cls.any (fun o => o.isSome) = true)
    (hrange : ∀ cls ∈ obsPerClass, ∀ q : ℚ, some q ∈ cls → 0 ≤ q ∧ q ≤ 1) :
    (∃ c : ℤ, (get_mode_label obs).2 = some c ∧ 0 ≤ c ∧ c ≤ 100) ∧
    ((get_mode_label obs).1 = none ↔ (get_mode_label obs).2 = none) ∧
    (∃ c : ℤ, (get_max_median_label obsPerClass).2 = some c ∧ 0 ≤ c ∧ c ≤ 100) ∧
    ((get_max_median_label obsPerClass).1 = none ↔
      (get_max_median_label obsPerClass).2 = none) := by
  obtain ⟨t, ht⟩ := modeReduce_some_of_pos obs hobs
  have hvq : (0 : ℚ) < (validCount obs : ℚ) := by exact_mod_cast hobs
  have hconf := get_mode_confidence_eval obs t hobs
  have hmle : matchCount obs t ≤ validCount obs := List.count_le_length t _
  have hq0 : (0 : ℚ) ≤ (100 * (matchCount obs t : ℚ)) / (validCount obs : ℚ) := by
    positivity
  have hq1 : (100 * (matchCount obs t : ℚ)) / (validCount obs : ℚ) ≤ 100 := by
    rw [div_le_iff hvq]
    have : (matchCount obs t : ℚ) ≤ (validCount obs : ℚ) := by exact_mod_cast hmle
    linarith
  have hall : (obsPerClass.map medianReduce).all (fun o => o.isSome) = true := by
    rw [List.all_eq_true]
    intro o ho
    rcases List.mem_map.mp ho with ⟨cls, hcls, rfl⟩
    rcases medianReduce_isSome cls (hvalid cls hcls) with ⟨q, hq⟩
    simp [hq]
  have harr : toArrayPixel (obsPerClass.map medianReduce) =
      some ((obsPerClass.map medianReduce).filterMap id) := by
    unfold toArrayPixel
    rw [if_pos hall]
  have hvne : (obsPerClass.map medianReduce).filterMap id ≠ [] := by
    obtain ⟨hlen, _⟩ := filterMap_id_all_some _ hall
    intro hc
    rw [hc] at hlen
    exact hne (by simpa using List.length_eq_zero.mp hlen.symm)
  have hvals : ∀ x ∈ (obsPerClass.map medianReduce).filterMap id, 0 ≤ x ∧ x ≤ 1 := by
    intro x hx
    rcases List.mem_filterMap.mp hx with ⟨o, ho, hid⟩
    rcases List.mem_map.mp ho with ⟨cls, hcls, rfl⟩
    cases hmr : medianReduce cls with
    | none => rw [hmr] at hid; exact absurd hid (by simp)
    | some p =>
        rw [hmr] at hid
        have hpx : p = x := by simpa using hid
        subst hpx
        exact medianReduce_range cls p hmr (hrange cls hcls)
  have hmax := hvals _ (maxList_mem _ hvne)
  have hmm0 : (0 : ℚ) ≤ maxList ((obsPerClass.map medianReduce).filterMap id) * 100 := by
    nlinarith [hmax.1]
  have hmm1 : maxList ((obsPerClass.map medianReduce).filterMap id) * 100 ≤ 100 := by
    nlinarith [hmax.2]
  refine ⟨?_, ?_, ?_, ?_⟩
  · refine ⟨⌊(100 * (matchCount obs t : ℚ)) / (validCount obs : ℚ)⌋, ?_, ?_, ?_⟩
    · simp [get_mode_label, ht, hconf]
    · exact Int.floor_nonneg.mpr hq0
    · have h2 := Int.floor_le_floor hq1
      simpa using h2
  · simp [get_mode_label, ht, hconf]
  · refine ⟨eeToInt (maxList ((obsPerClass.map medianReduce).filterMap id) * 100), ?_, ?_⟩
    · simp [get_max_median_label, harr, get_max_median_confidence]
    · exact eeToInt_bounds _ hmm0 hmm1
  · simp [get_max_median_label, harr, get_max_median_confidence]

/-- C9 witness: a two-observation label series and a two-class probability
series satisfying the hypotheses, with both confidences in range and both
label/confidence mask pairs aligned. -/
theorem confidence_image_invariants_witness :
    (∃ c : ℤ, (get_mode_label [some 2, some 5]).2 = some c ∧ 0 ≤ c ∧ c ≤ 100) ∧
    ((get_mode_label [some 2, some 5]).1 = none ↔
      (get_mode_label [some 2, some 5]).2 = none) ∧
    (∃ c : ℤ, (get_max_median_label [[some (1/2)], [some (1/4)]]).2 = some c ∧
      0 ≤ c ∧ c ≤ 100) ∧
    ((get_max_median_label [[some (1/2)], [some (1/4)]]).1 = none ↔
      (get_max_median_label [[some (1/2)], [some (1/4)]]).2 = none) := by
  refine confidence_image_invariants [some 2, some 5] [[some (1/2)], [some (1/4)]]
    (by decide) (by simp) (by decide) ?_
  intro cls hcls q hq
  simp only [List.mem_cons, List.not_mem_nil, or_false] at hcls
  rcases hcls with rfl | rfl <;> simp only [List.mem_singleton] at hq <;>
    rcases Option.some_inj.mp hq.symm with rfl <;> norm_num

/-!
Calendar lemmas for the interval generator.
-/

lemma daysInMonth_pos (y m : ℕ) : 0 < daysInMonth y m := by
  unfold daysInMonth
  by_cases h2 : m = 2
  · rw [if_pos h2]
    by_cases hl : isLeap y = true
    · rw [if_pos hl]; omega
    · rw [if_neg hl]; omega
  · rw [if_neg h2]
    by_cases h30 : m = 4 ∨ m = 6 ∨ m = 9 ∨ m = 11
    · rw [if_pos h30]; omega
    · rw [if_neg h30]; omega

lemma daysInMonth_le_31 (y m : ℕ) : daysInMonth y m ≤ 31 := by
  unfold daysInMonth
  by_cases h2 : m = 2
  · rw [if_pos h2]
    by_cases hl : isLeap y = true
    · rw [if_pos hl]; omega
    · rw [if_neg hl]; omega
  · rw [if_neg h2]
    by_cases h30 : m = 4 ∨ m = 6 ∨ m = 9 ∨ m = 11
    · rw [if_pos h30]; omega
    · rw [if_neg h30]

lemma daysInMonth_twelve (y : ℕ) : daysInMonth y 12 = 31 := by
  unfold daysInMonth
  norm_num

/-- Contiguity: the day after the last day of period `i` is the first day
of period `i + 1`. -/
lemma nextDay_periodLast (f : Freq) (i : ℕ) :
    nextDay (periodLast f i) = periodFirst f (i + 1) := by
  cases f with
  | yearly =>
      show nextDay ⟨i, 12, 31⟩ = ⟨i + 1, 1, 1⟩
      unfold nextDay
      simp only [show ∀ y m d, (CalDate.mk y m d).d = d from fun _ _ _ => rfl,
        show ∀ y m d, (CalDate.mk y m d).m = m from fun _ _ _ => rfl,
        show ∀ y m d, (CalDate.mk y m d).y = y from fun _ _ _ => rfl]
      rw [daysInMonth_twelve]
      norm_num
  | monthly =>
      unfold periodLast periodFirst nextDay
      simp only [show ∀ y m d, (CalDate.mk y m d).d = d from fun _ _ _ => rfl,
        show ∀ y m d, (CalDate.mk y m d).m = m from fun _ _ _ => rfl,
        show ∀ y m d, (CalDate.mk y m d).y = y from fun _ _ _ => rfl]
      rw [if_neg (lt_irrefl _)]
      by_cases h : i % 12 + 1 < 12
      · rw [if_pos h]
        have h1 : (i + 1) / 12 = i / 12 := by omega
        have h2 : (i + 1) % 12 = i % 12 + 1 := by omega
        rw [h1, h2]
      · rw [if_neg h]
        have h1 : (i + 1) / 12 = i / 12 + 1 := by omega
        have h2 : (i + 1) % 12 = 0 := by omega
        rw [h1, h2]

/-- The period index is monotone along the date order, for valid dates. -/
lemma periodIdx_mono (f : Freq) (a b : CalDate) (ha : a.Valid) (hb : b.Valid)
    (h : CalDate.le a b) : periodIdx f a ≤ periodIdx f b := by
  unfold CalDate.le at h
  unfold CalDate.Valid at ha hb
  cases f <;> simp only [periodIdx] <;> omega

/-- A valid date is at or after the first day of its period. -/
lemma periodFirst_le_self (f : Freq) (t : CalDate) (ht : t.Valid) :
    CalDate.le (periodFirst f (periodIdx f t)) t := by
  unfold CalDate.Valid at ht
  cases f with
  | yearly =>
      simp only [periodFirst, periodIdx]
      unfold CalDate.le
      simp only [CalDate.mk_y, CalDate.mk_m, CalDate.mk_d, true_and]
      omega
  | monthly =>
      have hy : (t.y * 12 + (t.m - 1)) / 12 = t.y := by omega
      have hm : (t.y * 12 + (t.m - 1)) % 12 + 1 = t.m := by omega
      simp only [periodFirst, periodIdx]
      rw [hy, hm]
      unfold CalDate.le
      simp only [CalDate.mk_y, CalDate.mk_m, CalDate.mk_d, true_and]
      omega

/-- A valid date is at or before the last day of its period. -/
lemma le_periodLast_self (f : Freq) (t : CalDate) (ht : t.Valid) :
    CalDate.le t (periodLast f (periodIdx f t)) := by
  unfold CalDate.Valid at ht
  cases f with
  | yearly =>
      have h31 : t.d ≤ 31 := le_trans ht.2.2.2 (daysInMonth_le_31 t.y t.m)
      simp only [periodLast, periodIdx]
      unfold CalDate.le
      simp only [CalDate.mk_y, CalDate.mk_m, CalDate.mk_d, true_and]
      omega
  | monthly =>
      have hy : (t.y * 12 + (t.m - 1)) / 12 = t.y := by omega
      have hm : (t.y * 12 + (t.m - 1)) % 12 + 1 = t.m := by omega
      simp only [periodLast, periodIdx]
      rw [hy, hm]
      unfold CalDate.le
      right
      exact ⟨rfl, Or.inr ⟨rfl, ht.2.2.2⟩⟩

/-- Separation: the last day of an earlier period precedes the first day of
a later period. -/
lemma periodLast_lt_periodFirst (f : Freq) (i j : ℕ) (h : i < j) :
    CalDate.lt (periodLast f i) (periodFirst f j) := by
  cases f with
  | yearly =>
      simp only [periodLast, periodFirst]
      unfold CalDate.lt
      simp only [CalDate.mk_y, CalDate.mk_m, CalDate.mk_d, true_and]
      omega
  | monthly =>
      simp only [periodLast, periodFirst]
      unfold CalDate.lt
      simp only [show ∀ y m d, (CalDate.mk y m d).d = d from fun _ _ _ => rfl,
        show ∀ y m d, (CalDate.mk y m d).m = m from fun _ _ _ => rfl,
        show ∀ y m d, (CalDate.mk y m d).y = y from fun _ _ _ => rfl]
      by_cases hy : i / 12 < j / 12
      · exact Or.inl hy
      · have h1 : i / 12 = j / 12 ∧ i % 12 < j % 12 := by omega
        exact Or.inr ⟨h1.1, Or.inl (by omega)⟩

/-- The first day of a period is at or before its last day. -/
lemma periodFirst_le_periodLast (f : Freq) (i : ℕ) :
    CalDate.le (periodFirst f i) (periodLast f i) := by
  cases f with
  | yearly =>
      simp only [periodFirst, periodLast]
      unfold CalDate.le
      simp only [CalDate.mk_y, CalDate.mk_m, CalDate.mk_d, true_and]
      omega
  | monthly =>
      simp only [periodFirst, periodLast]
      unfold CalDate.le
      have := daysInMonth_pos (i / 12) (i % 12 + 1)
      simp only [CalDate.mk_y, CalDate.mk_m, CalDate.mk_d, true_and]
      omega

/-- The period containing a period's first day is the period itself. -/
lemma periodIdx_periodFirst (f : Freq) (i : ℕ) :
    periodIdx f (periodFirst f i) = i := by
  cases f with
  | yearly => rfl
  | monthly =>
      simp only [periodIdx, periodFirst]
      omega

@[simp] lemma DateInterval.mk_start (a b : CalDate) : (DateInterval.mk a b).start = a := rfl

@[simp] lemma DateInterval.mk_stop (a b : CalDate) : (DateInterval.mk a b).stop = b := rfl

/-- C3 (amended): for valid `start <= end` and a recognized frequency,
`get_intervals` returns a non-empty chronologically ordered list of
contiguous, non-overlapping calendar periods covering `[start, end]`; each
interval runs from its period's first day to its period's *last* day — the
final partial period is *not* truncated to `end`. -/
theorem get_intervals_spec (s e : CalDate) (f : Freq) (freq : String)
    (hs : s.Valid) (he : e.Valid) (hle : CalDate.le s e)
    (hf : parseFreq freq = some (FreqClass.valid f)) :
    ∃ l : List DateInterval,
      get_intervals s e freq = some (Except.ok l) ∧
      l ≠ [] ∧
      (∀ iv ∈ l, CalDate.le iv.start iv.stop ∧
        iv.start = periodFirst f (periodIdx f iv.start) ∧
        iv.stop = periodLast f (periodIdx f iv.start)) ∧
      (∀ k (hk1 : k < l.length) (hk2 : k + 1 < l.length),
        nextDay ((l.get ⟨k, hk1⟩).stop) = (l.get ⟨k + 1, hk2⟩).start) ∧
      (∀ j k (hj : j < l.length) (hk : k < l.length), j < k →
        CalDate.lt ((l.get ⟨j, hj⟩).stop) ((l.get ⟨k, hk⟩).start)) ∧
      (∀ t : CalDate, t.Valid → CalDate.le s t → CalDate.le t e →
        ∃ iv ∈ l, CalDate.le iv.start t ∧ CalDate.le t iv.stop) := by
  have hP : periodIdx f s ≤ periodIdx f e := periodIdx_mono f s e hs he hle
  refine ⟨(period_range f s e).map (fun i => ⟨periodFirst f i, periodLast f i⟩),
    ?_, ?_, ?_, ?_, ?_, ?_⟩
  · unfold get_intervals
    rw [hf]
  · intro hc
    have h0 := congrArg List.length hc
    simp [period_range] at h0
    omega
  · intro iv hiv
    rcases List.mem_map.mp hiv with ⟨i, _, rfl⟩
    refine ⟨periodFirst_le_periodLast f i, ?_, ?_⟩
    · simp [periodIdx_periodFirst]
    · simp [periodIdx_periodFirst]
  · intro k hk1 hk2
    have hg1 : ((period_range f s e).map
        (fun i => (⟨periodFirst f i, periodLast f i⟩ : DateInterval))).get ⟨k, hk1⟩ =
        ⟨periodFirst f (periodIdx f s + k), periodLast f (periodIdx f s + k)⟩ := by
      simp [period_range, List.get_map, List.get_range]
    have hg2 : ((period_range f s e).map
        (fun i => (⟨periodFirst f i, periodLast f i⟩ : DateInterval))).get ⟨k + 1, hk2⟩ =
        ⟨periodFirst f (periodIdx f s + (k + 1)), periodLast f (periodIdx f s + (k + 1))⟩ := by
      simp [period_range, List.get_map, List.get_range]
    rw [hg1, hg2]
    simp only [DateInterval.mk_start, DateInterval.mk_stop]
    rw [show periodIdx f s + (k + 1) = periodIdx f s + k + 1 by omega]
    exact nextDay_periodLast f (periodIdx f s + k)
  · intro j k hj hk hjk
    have hg1 : ((period_range f s e).map
        (fun i => (⟨periodFirst f i, periodLast f i⟩ : DateInterval))).get ⟨j, hj⟩ =
        ⟨periodFirst f (periodIdx f s + j), periodLast f (periodIdx f s + j)⟩ := by
      simp [period_range, List.get_map, List.get_range]
    have hg2 : ((period_range f s e).map
        (fun i => (⟨periodFirst f i, periodLast f i⟩ : DateInterval))).get ⟨k, hk⟩ =
        ⟨periodFirst f (periodIdx f s + k), periodLast f (periodIdx f s + k)⟩ := by
      simp [period_range, List.get_map, List.get_range]
    rw [hg1, hg2]
    simp only [DateInterval.mk_start, DateInterval.mk_stop]
    exact periodLast_lt_periodFirst f _ _ (by omega)
  · intro t ht hst hte
    have h1 : periodIdx f s ≤ periodIdx f t := periodIdx_mono f s t hs ht hst
    have h2 : periodIdx f t ≤ periodIdx f e := periodIdx_mono f t e ht he hte
    refine ⟨⟨periodFirst f (periodIdx f t), periodLast f (periodIdx f t)⟩, ?_, ?_, ?_⟩
    · apply List.mem_map.mpr
      refine ⟨periodIdx f t, ?_, rfl⟩
      unfold period_range
      apply List.mem_map.mpr
      exact ⟨periodIdx f t - periodIdx f s, List.mem_range.mpr (by omega), by omega⟩
    · simpa using periodFirst_le_self f t ht
    · simpa using le_periodLast_self f t ht

/-- C3 witness: monthly intervals for 2021-01-10 .. 2021-03-05, from
`get_intervals_spec`, plus the concrete value of the call. -/
theorem get_intervals_spec_witness :
    (∃ l : List DateInterval,
      get_intervals ⟨2021, 1, 10⟩ ⟨2021, 3, 5⟩ r"M" = some (Except.ok l) ∧
      l ≠ [] ∧
      (∀ iv ∈ l, CalDate.le iv.start iv.stop ∧
        iv.start = periodFirst Freq.monthly (periodIdx Freq.monthly iv.start) ∧
        iv.stop = periodLast Freq.monthly (periodIdx Freq.monthly iv.start)) ∧
      (∀ k (hk1 : k < l.length) (hk2 : k + 1 < l.length),
        nextDay ((l.get ⟨k, hk1⟩).stop) = (l.get ⟨k + 1, hk2⟩).start) ∧
      (∀ j k (hj : j < l.length) (hk : k < l.length), j < k →
        CalDate.lt ((l.get ⟨j, hj⟩).stop) ((l.get ⟨k, hk⟩).start)) ∧
      (∀ t : CalDate, t.Valid → CalDate.le ⟨2021, 1, 10⟩ t → CalDate.le t ⟨2021, 3, 5⟩ →
        ∃ iv ∈ l, CalDate.le iv.start t ∧ CalDate.le t iv.stop)) ∧
    get_intervals ⟨2021, 1, 10⟩ ⟨2021, 3, 5⟩ r"M" =
      some (Except.ok [⟨⟨2021, 1, 1⟩, ⟨2021, 1, 31⟩⟩, ⟨⟨2021, 2, 1⟩, ⟨2021, 2, 28⟩⟩,
        ⟨⟨2021, 3, 1⟩, ⟨2021, 3, 31⟩⟩]) := by
  constructor
  · exact get_intervals_spec ⟨2021, 1, 10⟩ ⟨2021, 3, 5⟩ Freq.monthly _
      (by decide) (by decide) (by decide) (by decide)
  · decide

/-- C3 counterexample: `get_intervals('2020-01-01', '2020-02-15', 'M')`
ends its final interval on 2020-02-29, the last day of February, not on
the requested end date 2020-02-15: the final partial period is not
truncated. -/
theorem get_intervals_truncation_counterexample :
    get_intervals ⟨2020, 1, 1⟩ ⟨2020, 2, 15⟩ r"M" =
      some (Except.ok [⟨⟨2020, 1, 1⟩, ⟨2020, 1, 31⟩⟩, ⟨⟨2020, 2, 1⟩, ⟨2020, 2, 29⟩⟩]) ∧
    (⟨⟨2020, 2, 1⟩, ⟨2020, 2, 29⟩⟩ : DateInterval).stop ≠ ⟨2020, 2, 15⟩ := by
  exact ⟨by decide, by decide⟩

/-- C8 (amended): within the modelled frequency strings, `get_intervals`
raises the pandas `ValueError` exactly for an invalid period-frequency
string (such as the date-offset alias `MS`); for a valid frequency it
never raises, even when `start > end` — it returns the (possibly empty)
list of periods, empty whenever start's period is after end's period.  No
`InvalidRangeError` exists in the code. -/
theorem get_intervals_error_behaviour (s e : CalDate) (freq : String) :
    (parseFreq freq = some FreqClass.invalid →
      get_intervals s e freq = some (Except.error PdError.valueError)) ∧
    (∀ f : Freq, parseFreq freq = some (FreqClass.valid f) →
      ∃ l : List DateInterval, get_intervals s e freq = some (Except.ok l) ∧
        (periodIdx f e < periodIdx f s → l = [])) := by
  constructor
  · intro h
    unfold get_intervals
    rw [h]
  · intro f h
    refine ⟨(period_range f s e).map (fun i => ⟨periodFirst f i, periodLast f i⟩), ?_, ?_⟩
    · unfold get_intervals
      rw [h]
    · intro hlt
      unfold period_range
      rw [show periodIdx f e + 1 - periodIdx f s = 0 by omega]
      rfl

/-- C8 witness: the invalid frequency string `MS` errors with the pandas
`ValueError`; the valid monthly frequency with start after end returns an
empty list without raising. -/
theorem get_intervals_error_behaviour_witness :
    get_intervals ⟨2020, 1, 1⟩ ⟨2021, 1, 1⟩ r"MS" =
      some (Except.error PdError.valueError) ∧
    ∃ l : List DateInterval,
      get_intervals ⟨2020, 2, 1⟩ ⟨2020, 1, 1⟩ r"M" = some (Except.ok l) ∧
      (periodIdx Freq.monthly ⟨2020, 1, 1⟩ < periodIdx Freq.monthly ⟨2020, 2, 1⟩ → l = []) := by
  constructor
  · exact (get_intervals_error_behaviour ⟨2020, 1, 1⟩ ⟨2021, 1, 1⟩ r"MS").1 (by decide)
  · exact (get_intervals_error_behaviour ⟨2020, 2, 1⟩ ⟨2020, 1, 1⟩ r"M").2
      Freq.monthly (by decide)

/-- C8 counterexample: with `start = 2020-02-01 > end = 2020-01-01` and the
valid monthly frequency, `get_intervals` raises nothing and returns the
empty list — the claimed `InvalidRangeError` does not occur (no such error
exists in the code; pandas only raises for an invalid frequency string). -/
theorem get_intervals_start_after_end_counterexample :
    CalDate.lt ⟨2020, 1, 1⟩ ⟨2020, 2, 1⟩ ∧
    get_intervals ⟨2020, 2, 1⟩ ⟨2020, 1, 1⟩ r"M" = some (Except.ok []) := by
  exact ⟨by decide, by decide⟩

lemma mem_filterDate1 (coll : List TimedImage) (d : ℕ) (img : TimedImage) :
    img ∈ filterDate1 coll d ↔ img ∈ coll ∧ img.ts = d := by
  unfold filterDate1
  rw [List.mem_filter]
  simp only [Bool.and_eq_true, decide_eq_true_eq]
  constructor
  · rintro ⟨h1, h2, h3⟩
    exact ⟨h1, by omega⟩
  · rintro ⟨h1, h2⟩
    exact ⟨h1, by omega, by omega⟩

lemma mem_filterDate2 (coll : List TimedImage) (d1 d2 : ℕ) (img : TimedImage) :
    img ∈ filterDate2 coll d1 d2 ↔ img ∈ coll ∧ (d1 ≤ img.ts ∧ img.ts < d2) := by
  unfold filterDate2
  rw [List.mem_filter]
  simp only [Bool.and_eq_true, decide_eq_true_eq]

/-- C4: evaluation at a concrete failing input.  The collection has one
image at t=0; the second interval [1000, 2000) selects nothing, yet the
call raises nothing client-side and still emits two lazily-built rasters —
the second with an empty source — instead of the claimed
`len(intervals) - 1 = 1` rasters.  No EE call in the loop body raises on
the client for an empty subset (they only build the computation graph), so
the `except` clause never skips an empty interval. -/
theorem reduce_to_intervals_keeps_empty_interval :
    reduce_to_intervals [⟨0⟩] [⟨0, 0⟩, ⟨1000, 2000⟩] r"median" none r"aggregation_period" =
      [⟨[⟨0⟩], ReducerKind.median, none, 0, some 0⟩,
       ⟨[], ReducerKind.median, none, 1000, some 2000⟩] ∧
    (reduce_to_intervals [⟨0⟩] [⟨0, 0⟩, ⟨1000, 2000⟩] r"median" none
      r"aggregation_period").length = 2 := by
  exact ⟨by decide, by decide⟩

/-- C5 (amended): an unrecognized statistic name raises a `KeyError` inside
the per-interval `try` block, which the blanket `except BaseException`
catches for every interval; the call returns an empty image collection to
the caller and no error propagates. -/
theorem reduce_to_intervals_unknown_method (coll : List TimedImage)
    (intervals : List MsInterval) (method : String) (names : Option (List String))
    (meta_type : String) (h : reducer_lut method = none) :
    reduce_to_intervals coll intervals method names meta_type = [] := by
  have hbody : ∀ iv, intervalBody coll iv method names meta_type =
      Except.error ClientError.keyError := by
    intro iv
    unfold intervalBody
    rw [h]
  unfold reduce_to_intervals
  induction intervals with
  | nil => rfl
  | cons iv rest ih =>
      rw [List.foldl_cons, hbody iv]
      exact ih

/-- C5 witness: the unknown method name yields an empty collection, via
`reduce_to_intervals_unknown_method`. -/
theorem reduce_to_intervals_unknown_method_witness :
    reduce_to_intervals [⟨0⟩] [⟨0, 100⟩] r"variance" none r"aggregation_period" = [] :=
  reduce_to_intervals_unknown_method _ _ _ _ _ (by decide)

/-- C5 counterexample: with the unsupported statistic name and a non-empty
interval list, the call returns the empty collection — it neither
propagates an `UnknownReducerError`-like exception nor fails. -/
theorem reduce_to_intervals_unknown_method_counterexample :
    reducer_lut r"variance" = none ∧
    reduce_to_intervals [⟨0⟩, ⟨150⟩] [⟨0, 100⟩, ⟨100, 200⟩] r"variance" none
      r"aggregation_period" = [] := by
  exact ⟨by decide, by decide⟩

/-- C7 (amended): for a recognized method, the interval with `start == end`
selects exactly the images timestamped at that instant (EE `filterDate`
with one argument is a 1-millisecond range), while `start < end` selects
the half-open range `[start, end)` — the end bound is *exclusive*. -/
theorem reduce_to_intervals_selection (coll : List TimedImage) (iv : MsInterval)
    (method : String) (r : ReducerKind) (names : Option (List String))
    (meta_type : String) (h : reducer_lut method = some r) :
    ∃ im : ReducedImage,
      reduce_to_intervals coll [iv] method names meta_type = [im] ∧
      ∀ img : TimedImage, img ∈ im.source ↔
        img ∈ coll ∧ (if iv.start = iv.stop then img.ts = iv.start
          else iv.start ≤ img.ts ∧ img.ts < iv.stop) := by
  have hsubset : ∀ img : TimedImage,
      img ∈ (if iv.start = iv.stop then filterDate1 coll iv.start
        else filterDate2 coll iv.start iv.stop) ↔
      img ∈ coll ∧ (if iv.start = iv.stop then img.ts = iv.start
        else iv.start ≤ img.ts ∧ img.ts < iv.stop) := by
    intro img
    by_cases hse : iv.start = iv.stop
    · rw [if_pos hse, if_pos hse]
      exact mem_filterDate1 coll iv.start img
    · rw [if_neg hse, if_neg hse]
      exact mem_filterDate2 coll iv.start iv.stop img
  by_cases hmt : meta_type = r"aggregation_period"
  · have hbody : intervalBody coll iv method names meta_type =
        Except.ok ⟨(if iv.start = iv.stop then filterDate1 coll iv.start
          else filterDate2 coll iv.start iv.stop), r, names, iv.start, some iv.stop⟩ := by
      simp only [intervalBody, h]
      rw [if_pos hmt]
    refine ⟨⟨(if iv.start = iv.stop then filterDate1 coll iv.start
      else filterDate2 coll iv.start iv.stop), r, names, iv.start, some iv.stop⟩, ?_, hsubset⟩
    unfold reduce_to_intervals
    simp only [List.foldl_cons, List.foldl_nil]
    rw [hbody]
    rfl
  · have hbody : intervalBody coll iv method names meta_type =
        Except.ok ⟨(if iv.start = iv.stop then filterDate1 coll iv.start
          else filterDate2 coll iv.start iv.stop), r, names,
          iv.start + (iv.stop - iv.start) / 2, none⟩ := by
      simp only [intervalBody, h]
      rw [if_neg hmt]
    refine ⟨⟨(if iv.start = iv.stop then filterDate1 coll iv.start
      else filterDate2 coll iv.start iv.stop), r, names,
      iv.start + (iv.stop - iv.start) / 2, none⟩, ?_, hsubset⟩
    unfold reduce_to_intervals
    simp only [List.foldl_cons, List.foldl_nil]
    rw [hbody]
    rfl

/-- C7 witness: a singleton collection inside a proper interval is
selected, via `reduce_to_intervals_selection`. -/
theorem reduce_to_intervals_selection_witness :
    ∃ im : ReducedImage,
      reduce_to_intervals [⟨5⟩] [⟨0, 10⟩] r"median" none r"aggregation_period" = [im] ∧
      ∀ img : TimedImage, img ∈ im.source ↔
        img ∈ [(⟨5⟩ : TimedImage)] ∧
          (if (0 : ℕ) = 10 then img.ts = 0 else 0 ≤ img.ts ∧ img.ts < 10) :=
  reduce_to_intervals_selection [⟨5⟩] ⟨0, 10⟩ r"median" ReducerKind.median none
    r"aggregation_period" (by decide)

/-- C7 counterexample: an image timestamped exactly at the interval's end
(100, inside the claimed closed range [0, 100]) is *not* selected: the
emitted raster's source is empty because `filterDate` is end-exclusive. -/
theorem reduce_to_intervals_end_exclusive_counterexample :
    (0 : ℕ) ≤ 100 ∧ (100 : ℕ) ≤ 100 ∧
    reduce_to_intervals [⟨100⟩] [⟨0, 100⟩] r"median" none r"aggregation_period" =
      [⟨[], ReducerKind.median, none, 0, some 100⟩] := by
  exact ⟨by decide, by decide, by decide⟩

/-!
Lemmas for row normalization of the error matrix.
-/

lemma sum_map_div (row : List ℚ) (s : ℚ) :
    (row.map (fun x => x / s)).sum = row.sum / s := by
  induction row with
  | nil => simp
  | cons x xs ih => simp [ih, add_div]

lemma all_zero_of_sum_zero (row : List ℚ) (hs : row.sum = 0)
    (hnn : ∀ x ∈ row, 0 ≤ x) : ∀ x ∈ row, x = 0 := by
  induction row with
  | nil => intro x hx; simp at hx
  | cons y ys ih =>
      have hy : 0 ≤ y := hnn y (List.mem_cons_self y ys)
      have hys : 0 ≤ ys.sum := List.sum_nonneg (fun x hx => hnn x (List.mem_cons_of_mem y hx))
      rw [List.sum_cons] at hs
      have hy0 : y = 0 := by linarith
      have hsum0 : ys.sum = 0 := by linarith
      intro x hx
      rcases List.mem_cons.mp hx with rfl | hx'
      · exact hy0
      · exact ih hsum0 (fun z hz => hnn z (List.mem_cons_of_mem y hz)) x hx'

/-- C6: `get_normalised_error_matrix` divides each row by its row sum.  A
row with nonzero raw sum maps to defined rational entries summing to 1; a
row of nonnegative counts with zero raw sum maps to all-NaN entries
(pandas 0/0), not zeros. -/
theorem get_normalised_error_matrix_rows (em : List (List ℚ)) (labels : List String)
    (row : List ℚ) (hrow : row ∈ em) :
    (row.map (fun x => pandasDiv x row.sum)) ∈ get_normalised_error_matrix em labels ∧
    (row.sum ≠ 0 →
      row.map (fun x => pandasDiv x row.sum) = row.map (fun x => PdVal.val (x / row.sum)) ∧
      (row.map (fun x => x / row.sum)).sum = 1) ∧
    (row.sum = 0 → (∀ x ∈ row, 0 ≤ x) →
      row.map (fun x => pandasDiv x row.sum) = row.map (fun _ => PdVal.nan)) := by
  refine ⟨?_, ?_, ?_⟩
  · unfold get_normalised_error_matrix
    exact List.mem_map_of_mem _ hrow
  · intro hs
    constructor
    · apply List.map_congr_left
      intro x _
      unfold pandasDiv
      rw [if_neg hs]
    · rw [sum_map_div, div_self hs]
  · intro hs hnn
    apply List.map_congr_left
    intro x hx
    have hx0 : x = 0 := all_zero_of_sum_zero row hs hnn x hx
    unfold pandasDiv
    rw [if_pos hs, if_pos hx0]

/-- C6 witness: the matrix [[1, 1], [0, 0]]: the first row normalizes to
[1/2, 1/2] (sum 1) and the zero row normalizes to [NaN, NaN]. -/
theorem get_normalised_error_matrix_rows_witness :
    (([(1 : ℚ), 1].map (fun x => pandasDiv x ([(1 : ℚ), 1]).sum)) ∈
      get_normalised_error_matrix [[1, 1], [0, 0]] [r"a", r"b"] ∧
     (([(1 : ℚ), 1]).sum ≠ 0 →
      [(1 : ℚ), 1].map (fun x => pandasDiv x ([(1 : ℚ), 1]).sum) =
        [(1 : ℚ), 1].map (fun x => PdVal.val (x / ([(1 : ℚ), 1]).sum)) ∧
      ([(1 : ℚ), 1].map (fun x => x / ([(1 : ℚ), 1]).sum)).sum = 1) ∧
     (([(1 : ℚ), 1]).sum = 0 → (∀ x ∈ [(1 : ℚ), 1], 0 ≤ x) →
      [(1 : ℚ), 1].map (fun x => pandasDiv x ([(1 : ℚ), 1]).sum) =
        [(1 : ℚ), 1].map (fun _ => PdVal.nan))) ∧
    ([(0 : ℚ), 0].map (fun x => pandasDiv x ([(0 : ℚ), 0]).sum) =
      [(0 : ℚ), 0].map (fun _ => PdVal.nan)) := by
  constructor
  · exact get_normalised_error_matrix_rows [[1, 1], [0, 0]] [r"a", r"b"] [1, 1] (by simp)
  · exact (get_normalised_error_matrix_rows [[1, 1], [0, 0]] [r"a", r"b"] [0, 0]
      (by simp)).2.2 (by norm_num) (by norm_num)

/-- C10: with all keyword arguments omitted, `get_error_matrix` requests a
stratified sample with the fixed defaults seed = 42, scale = 10,
npoints = 2000 and region = None (class band 'reference', geometries off);
and two calls building the same sampling request against the same backend
return the identical confusion matrix and overall accuracy. -/
theorem get_error_matrix_defaults :
    buildSampleSpec ⟨none, none, none, none⟩ =
      ⟨r"reference", r"prediction", 2000, r"reference", none, 10, 42, false⟩ ∧
    ∀ (backend : SampleSpec → List (ℕ × ℕ)) (k₁ k₂ : MetricsKwargs),
      buildSampleSpec k₁ = buildSampleSpec k₂ →
      get_error_matrix backend k₁ = get_error_matrix backend k₂ := by
  constructor
  · rfl
  · intro backend k₁ k₂ h
    unfold get_error_matrix
    rw [h]

/-- C10 witness: two calls with omitted keyword arguments on a fixed
backend coincide, via `get_error_matrix_defaults`; the sampling request
carries seed 42, scale 10, 2000 points and no region. -/
theorem get_error_matrix_defaults_witness :
    buildSampleSpec ⟨none, none, none, none⟩ =
      ⟨r"reference", r"prediction", 2000, r"reference", none, 10, 42, false⟩ ∧
    get_error_matrix (fun _ => [(0, 0), (1, 1)]) ⟨none, none, none, none⟩ =
      get_error_matrix (fun _ => [(0, 0), (1, 1)]) ⟨none, none, none, none⟩ := by
  refine ⟨(get_error_matrix_defaults).1, ?_⟩
  exact (get_error_matrix_defaults).2 (fun _ => [(0, 0), (1, 1)])
    ⟨none, none, none, none⟩ ⟨none, none, none, none⟩ rfl
